import Mathlib

/-!
Verification development for the lab-report analyzer (src/testrep.py).

The Python program is shallowly embedded as follows.

* Numbers.  Every numeric value flowing through the pipeline is a
  nonnegative decimal produced by `float()` on a digit/dot token, or a
  nonnegative int/float literal of the rule table.  We represent such a
  value exactly as a mantissa/exponent pair `Dec` (value = man / 10^exp),
  kept in normalized form (no trailing decimal zeros), so that Python
  float equality, ordering and `repr` on these values are mirrored by
  decidable `Nat` computations.  `Dec.toRat` is the rational value and is
  used in theorem statements only.

* Strings.  Python `str` is Lean `String`; the byte-level operations used
  by the source (`.lower()`, `.upper()`, `.strip()`, `.replace(",","")`,
  substring tests, `.endswith`) are modelled on `List Char`.  All text in
  the claims is ASCII, where `Char.toLower`/`Char.toUpper` agree with
  Python.

* Regular expressions.  The two analyzer searches are `re.search` with
  Python backtracking semantics.  The simple value pattern
  `NAME[^0-9]*(\d+\.?\d*)` is embedded directly (`findTestValue`): at the
  leftmost occurrence of the name the greedy `[^0-9]*` stops at the first
  digit and the group takes the maximal `\d+\.?\d*`; if no digit follows
  the first occurrence, none follows any later one, so the search fails.
  The reference-range pattern `NAME.*?\d+\.?\d*.*?(\d+\.?\d*)\s*-\s*(\d+\.?\d*)`
  needs real backtracking (the non-captured number can backtrack into the
  first capture), so it runs on a small backtracking engine (`mrun`) that
  transliterates the pattern item by item (`.` does not match a newline;
  `re.search` tries start positions left to right).  The engine carries
  fuel only to make it structurally recursive: every engine step either
  consumes an input character or removes a pattern item, so recursion
  depth is below (input length + 1) * (pattern weight + 1), which is the
  fuel supplied; the fuel is therefore never exhausted.

* Exceptions.  `float()` and `list[0]` are modelled as `Except PyExn`;
  `try/except` blocks of the source are translated as matches on those
  results, so an uncaught exception would surface as `Except.error`.

* I/O.  `extract_text_from_file` calls pdfplumber, camelot, PIL and
  pytesseract.  Those external calls are abstracted as an environment
  `ExtractEnv` recording each call's outcome (value or raised exception);
  the function's own control flow — the fallback chain, every
  `try/except`, the extension dispatch, and the conditional 1.5x upscale
  of the grayscale image before OCR — is embedded faithfully.  `print`
  calls have no observable effect and are dropped.
-/

/-! ## Exact decimal values (Python floats arising in this program) -/

/-- A nonnegative decimal value man / 10^exp.  All numeric values in the
pipeline (parsed tokens, rule bounds) are finite decimals, which Python
floats represent faithfully at the precision occurring here. -/
structure Dec where
  man : Nat
  exp : Nat
deriving DecidableEq, Repr

/-- Rational value of a `Dec`; used in specifications only. -/
def Dec.toRat (d : Dec) : ℚ := (d.man : ℚ) / (10 : ℚ) ^ d.exp

/-- Strict comparison of two decimals by cross multiplication. -/
def dLt (a b : Dec) : Bool := decide (a.man * 10 ^ b.exp < b.man * 10 ^ a.exp)

/-- Remove trailing decimal zeros: fuel is the exponent. -/
def normDecAux : Nat → Nat → Nat → Dec
  | 0, m, e => ⟨m, e⟩
  | _ + 1, m, 0 => ⟨m, 0⟩
  | f + 1, m, e + 1 => if m % 10 = 0 then normDecAux f (m / 10) e else ⟨m, e + 1⟩

/-- Normalized decimal with mantissa `m` and exponent `e`. -/
def normDec (m e : Nat) : Dec := normDecAux e m e

/-- Digits to a natural number (most significant first). -/
def natOfDigits (cs : List Char) : Nat :=
  cs.foldl (fun n c => n * 10 + (c.toNat - 48)) 0

/-- Value of a token of shape digits, optionally a dot, digits
(the shapes produced by the regex groups), as `float()` computes it. -/
def decOfToken (cs : List Char) : Dec :=
  let ip := cs.takeWhile (fun c => c.isDigit)
  let rest := cs.drop ip.length
  let fp := (rest.drop 1).takeWhile (fun c => c.isDigit)
  normDec (natOfDigits (ip ++ fp)) fp.length

/-- Left pad with zeros to the given length. -/
def padZeros (n : Nat) (s : String) : String :=
  String.mk (List.replicate (n - s.data.length) '0') ++ s

/-- Python `repr` of the float value of a normalized `Dec`:
an integral value prints with a trailing `.0`, otherwise the fractional
digits follow the dot. -/
def pyFloatStr (d : Dec) : String :=
  if d.exp = 0 then toString d.man ++ ".0"
  else toString (d.man / 10 ^ d.exp) ++ "." ++
       padZeros d.exp (toString (d.man % 10 ^ d.exp))

/-- A rule-table literal: Python int or float literal, kept apart because
they print differently in f-strings (12 prints as 12, 16.5 as 16.5). -/
inductive PyNum where
  | int (n : Nat)
  | float (d : Dec)
deriving DecidableEq

/-- Numeric value of a rule-table literal. -/
def PyNum.val : PyNum → Dec
  | .int n => ⟨n, 0⟩
  | .float d => d

/-- How the literal prints inside an f-string. -/
def PyNum.str : PyNum → String
  | .int n => toString n
  | .float d => pyFloatStr d

/-! ## Character/string helpers (Python str operations on ASCII text) -/

/-- Python `\s` for the ASCII characters occurring here. -/
def isPySpace (c : Char) : Bool :=
  c == ' ' || c == '\t' || c == '\n' || c == '\r' || c == '\x0b' || c == '\x0c'

/-- List-of-chars prefix test. -/
def hasPrefixL : List Char → List Char → Bool
  | [], _ => true
  | _ :: _, [] => false
  | p :: ps, c :: cs => p == c && hasPrefixL ps cs

/-- The suffix just after the first (leftmost) occurrence of `pat`;
`none` when `pat` does not occur. -/
def afterFirstOcc (pat : List Char) : List Char → Option (List Char)
  | [] => if pat.isEmpty then some [] else none
  | c :: s =>
    if hasPrefixL pat (c :: s) then some ((c :: s).drop pat.length)
    else afterFirstOcc pat s

/-- Python substring test `pat in s`. -/
def containsL (s pat : List Char) : Bool := (afterFirstOcc pat s).isSome

/-- Python substring test on `String`. -/
def containsS (s pat : String) : Bool := containsL s.data pat.data

/-- Python `str.lower` (ASCII). -/
def pyLower (s : String) : String := String.mk (s.data.map Char.toLower)

/-- Python `str.upper` (ASCII). -/
def pyUpper (s : String) : String := String.mk (s.data.map Char.toUpper)

/-- Case-insensitive substring test (models `str.contains(..., case=False)`
with an alternation of plain literals). -/
def ciContains (s pat : String) : Bool := containsS (pyLower s) (pyLower pat)

/-- Python `str.strip()` on ASCII whitespace. -/
def stripL (cs : List Char) : List Char :=
  ((cs.dropWhile isPySpace).reverse.dropWhile isPySpace).reverse

/-- Python `str.replace(",", "")`. -/
def stripCommas (cs : List Char) : List Char := cs.filter (fun c => !(c == ','))

/-- List suffix test, for Python `str.endswith`. -/
def endsWithL (s suf : List Char) : Bool := hasPrefixL suf.reverse s.reverse

/-! ## The rule table (LAB_RULES of src/testrep.py, in source order) -/

/-- One value of the LAB_RULES dictionary. -/
structure LabRule where
  low : PyNum
  high : PyNum
  unit : String
  meaning : String
deriving DecidableEq

/-- The LAB_RULES dictionary: association list in insertion order
(Python dict iteration order). -/
def LAB_RULES : List (String × LabRule) :=
  [ ("glucose", ⟨.int 70, .int 99, "mg/dL", "Diabetes risk if high"⟩),
    ("fasting blood sugar", ⟨.int 74, .int 106, "mg/dL", "Diabetes risk if high"⟩),
    ("postprandial glucose", ⟨.int 70, .int 140, "mg/dL", "Elevated after meals indicates diabetes"⟩),
    ("hba1c", ⟨.int 4, .float ⟨64, 1⟩, "%", "Diabetes marker; >6.5% indicates diabetes"⟩),
    ("hemoglobin", ⟨.int 12, .float ⟨165, 1⟩, "g/dL", "Low may indicate anemia"⟩),
    ("wbc", ⟨.int 4000, .int 11000, "/µL", "Abnormal count may indicate infection"⟩),
    ("platelets", ⟨.int 150000, .int 450000, "/µL", "Low = bleeding risk; High = clotting risk"⟩),
    ("rbc", ⟨.float ⟨42, 1⟩, .float ⟨59, 1⟩, "M/µL", "Low = anemia; High = dehydration/polycythemia"⟩),
    ("hematocrit", ⟨.int 36, .int 50, "%", "Low = anemia; High = dehydration"⟩),
    ("mcv", ⟨.int 80, .int 100, "fL", "Red cell size; low = microcytic anemia"⟩),
    ("mch", ⟨.int 27, .int 33, "pg", "Hemoglobin per RBC; low = anemia"⟩),
    ("mchc", ⟨.int 32, .int 36, "g/dL", "RBC concentration; low = iron deficiency"⟩),
    ("esr", ⟨.int 0, .int 20, "mm/hr", "High = inflammation/infection"⟩),
    ("cholesterol", ⟨.int 0, .int 200, "mg/dL", "High indicates cardiovascular risk"⟩),
    ("ldl", ⟨.int 0, .int 100, "mg/dL", "High LDL = bad cholesterol"⟩),
    ("hdl", ⟨.int 40, .int 60, "mg/dL", "Low HDL increases heart risk"⟩),
    ("triglyceride", ⟨.int 0, .int 150, "mg/dL", "High indicates metabolic risk"⟩),
    ("creatinine", ⟨.float ⟨6, 1⟩, .float ⟨12, 1⟩, "mg/dL", "High = kidney dysfunction"⟩),
    ("urea", ⟨.int 19, .int 43, "mg/dL", "Kidney function marker"⟩),
    ("uric acid", ⟨.float ⟨34, 1⟩, .float ⟨7, 0⟩, "mg/dL", "High = gout or kidney issue"⟩),
    ("bun", ⟨.int 7, .int 20, "mg/dL", "Kidney function marker"⟩),
    ("sgpt", ⟨.int 0, .int 40, "U/L", "High = liver damage"⟩),
    ("sgot", ⟨.int 0, .int 40, "U/L", "High = liver/muscle damage"⟩),
    ("bilirubin", ⟨.float ⟨3, 1⟩, .float ⟨12, 1⟩, "mg/dL", "High = jaundice/liver issue"⟩),
    ("alkaline phosphatase", ⟨.int 44, .int 147, "U/L", "High = liver/bone disease"⟩),
    ("total protein", ⟨.float ⟨6, 0⟩, .float ⟨83, 1⟩, "g/dL", "Low = malnutrition/liver issue"⟩),
    ("albumin", ⟨.float ⟨35, 1⟩, .float ⟨55, 1⟩, "g/dL", "Low = malnutrition/liver/kidney disease"⟩),
    ("tsh", ⟨.float ⟨4, 1⟩, .float ⟨4, 0⟩, "µIU/mL", "Thyroid disorder if abnormal"⟩),
    ("t3", ⟨.int 80, .int 200, "ng/dL", "Thyroid hormone"⟩),
    ("t4", ⟨.float ⟨5, 0⟩, .float ⟨12, 0⟩, "µg/dL", "Thyroid hormone"⟩),
    ("vitamin d", ⟨.int 30, .int 100, "ng/mL", "Low = Vitamin D deficiency"⟩),
    ("vitamin b12", ⟨.int 187, .int 833, "pg/mL", "Low = Vitamin B12 deficiency"⟩),
    ("calcium", ⟨.float ⟨85, 1⟩, .float ⟨105, 1⟩, "mg/dL", "Abnormal = bone/metabolic issue"⟩),
    ("sodium", ⟨.int 135, .int 145, "mmol/L", "Electrolyte imbalance if abnormal"⟩),
    ("potassium", ⟨.float ⟨35, 1⟩, .float ⟨51, 1⟩, "mmol/L", "Abnormal = heart/muscle issues"⟩),
    ("psa", ⟨.int 0, .int 4, "ng/mL", "Prostate cancer marker"⟩),
    ("ca 15-3", ⟨.int 0, .int 30, "U/mL", "Breast cancer progression marker"⟩),
    ("ca-125", ⟨.int 0, .int 35, "U/mL", "Ovarian cancer marker"⟩),
    ("cea", ⟨.int 0, .int 5, "ng/mL", "Colon cancer marker"⟩),
    ("afp", ⟨.int 0, .int 10, "ng/mL", "Liver cancer marker"⟩),
    ("ige", ⟨.int 0, .int 87, "IU/mL", "High = allergy or asthma risk"⟩) ]

/-! ## Backtracking regex engine for the reference-range heuristic -/

/-- Character classes occurring in the embedded patterns. -/
inductive CClass where
  | anyNN
  | wsp
  | digit
  | nonDigit
  | dotChar
deriving DecidableEq

/-- Membership test of a character class (`anyNN` is `.` without DOTALL). -/
def CClass.mem : CClass → Char → Bool
  | .anyNN, c => !(c == '\n')
  | .wsp, c => isPySpace c
  | .digit, c => c.isDigit
  | .nonDigit, c => !(c.isDigit)
  | .dotChar, c => c == '.'

/-- Pattern items: literal run, single class char, star (greedy or lazy),
optional char (greedy), and capture-group delimiters. -/
inductive RItem where
  | lit (cs : List Char)
  | one (cl : CClass)
  | star (cl : CClass) (greedy : Bool)
  | opt (cl : CClass)
  | gopen
  | gclose
deriving DecidableEq

/-- Backtracking matcher anchored at the start of `s`, exploring
alternatives in the same order as Python's engine (greedy pieces longest
first, lazy pieces shortest first); returns the captures of the first
full match.  `stk` holds the input suffix at each open group.  Fuel only
enforces structural recursion; each call shrinks (input, pattern). -/
def mrun : Nat → List RItem → List Char → List (List Char) → List (List Char) →
    Option (List (List Char))
  | 0, _, _, _, _ => none
  | _ + 1, [], _, _, caps => some caps
  | fuel + 1, .lit cs :: ps, s, stk, caps =>
    if hasPrefixL cs s then mrun fuel ps (s.drop cs.length) stk caps else none
  | fuel + 1, .one cl :: ps, s, stk, caps =>
    match s with
    | [] => none
    | c :: s1 => if cl.mem c then mrun fuel ps s1 stk caps else none
  | fuel + 1, .star cl g :: ps, s, stk, caps =>
    if g then
      match s with
      | [] => mrun fuel ps [] stk caps
      | c :: s1 =>
        if cl.mem c then
          match mrun fuel (.star cl g :: ps) s1 stk caps with
          | some r => some r
          | none => mrun fuel ps s stk caps
        else mrun fuel ps s stk caps
    else
      match mrun fuel ps s stk caps with
      | some r => some r
      | none =>
        match s with
        | [] => none
        | c :: s1 => if cl.mem c then mrun fuel (.star cl g :: ps) s1 stk caps else none
  | fuel + 1, .opt cl :: ps, s, stk, caps =>
    match s with
    | [] => mrun fuel ps [] stk caps
    | c :: s1 =>
      if cl.mem c then
        match mrun fuel ps s1 stk caps with
        | some r => some r
        | none => mrun fuel ps s stk caps
      else mrun fuel ps s stk caps
  | fuel + 1, .gopen :: ps, s, stk, caps => mrun fuel ps s (s :: stk) caps
  | fuel + 1, .gclose :: ps, s, stk, caps =>
    match stk with
    | [] => none
    | s0 :: stk1 => mrun fuel ps s stk1 (caps ++ [s0.take (s0.length - s.length)])

/-- Weight of a pattern, bounding how many pattern-shrinking steps a
match can take. -/
def patWeight (ps : List RItem) : Nat :=
  ps.foldl (fun n i => n + (match i with | .lit cs => cs.length + 1 | _ => 1)) 1

/-- Fuel that the depth bound of `mrun` can never exhaust. -/
def fuelFor (ps : List RItem) (s : List Char) : Nat :=
  (s.length + 1) * (patWeight ps + 1)

/-- `re.search`: try a match at each start position, leftmost first. -/
def rsearch (ps : List RItem) : List Char → Option (List (List Char))
  | [] => mrun (fuelFor ps []) ps [] [] []
  | c :: s =>
    match mrun (fuelFor ps (c :: s)) ps (c :: s) [] [] with
    | some caps => some caps
    | none => rsearch ps s

/-- `\d+\.?\d*` without a capture group. -/
def numPlain : List RItem :=
  [.one .digit, .star .digit true, .opt .dotChar, .star .digit true]

/-- `(\d+\.?\d*)`. -/
def numGroup : List RItem :=
  [.gopen, .one .digit, .star .digit true, .opt .dotChar, .star .digit true, .gclose]

/-- The value pattern of the analyzer, `NAME[^0-9]*(\d+\.?\d*)`,
transliterated for the engine.  `findTestValue` below embeds the same
search directly; their agreement is proved in `rsearch_valuePattern`. -/
def valuePattern (test : List Char) : List RItem :=
  [.lit test, .star .nonDigit true] ++ numGroup

/-- The reference-range pattern of the analyzer:
`NAME.*?\d+\.?\d*.*?(\d+\.?\d*)\s*-\s*(\d+\.?\d*)` (no DOTALL). -/
def refPattern (test : List Char) : List RItem :=
  [.lit test, .star .anyNN false] ++ numPlain ++
  [.star .anyNN false] ++ numGroup ++
  [.star .wsp true, .lit ['-'], .star .wsp true] ++ numGroup

/-- The in-text reference-range heuristic: the two captured numbers,
through `float()`. -/
def findRefRange (test : List Char) (s : List Char) : Option (Dec × Dec) :=
  match rsearch (refPattern test) s with
  | some (a :: b :: _) => some (decOfToken a, decOfToken b)
  | _ => none

/-! ## The analyzer (analyze_text_for_lab_values) -/

/-- The suffix starting at the first digit, if any. -/
def dropToDigit : List Char → Option (List Char)
  | [] => none
  | c :: s => if c.isDigit then some (c :: s) else dropToDigit s

/-- Maximal `\d+\.?\d*` token at the head of `s` (which starts with a
digit): greedy digits, an optional dot, greedy digits. -/
def parseNumGreedy (s : List Char) : List Char :=
  let d1 := s.takeWhile (fun c => c.isDigit)
  match s.drop d1.length with
  | '.' :: r => d1 ++ '.' :: r.takeWhile (fun c => c.isDigit)
  | _ => d1

/-- What is left of `s` after the maximal `\d+\.?\d*` token
(complement of `parseNumGreedy`). -/
def numRest (s : List Char) : List Char :=
  match s.dropWhile (fun c => c.isDigit) with
  | '.' :: r => r.dropWhile (fun c => c.isDigit)
  | r => r

/-- `re.search` of the value pattern `NAME[^0-9]*(\d+\.?\d*)`: the
pattern matches at a position exactly when the name starts there and some
digit follows it, so the leftmost match sits at the first occurrence of
the name, the greedy `[^0-9]*` stops at the first digit after it, and the
group takes the maximal number token there.  If no digit follows the
first occurrence of the name, none follows a later occurrence either, and
the search fails. -/
def findTestValue (test : List Char) (s : List Char) : Option Dec :=
  match afterFirstOcc test s with
  | none => none
  | some rest =>
    match dropToDigit rest with
    | none => none
    | some ds => some (decOfToken (parseNumGreedy ds))

/-- Status classification of the analyzer (value always a float, so the
isinstance branch of the source is always taken). -/
inductive Status where
  | low
  | normal
  | high
deriving DecidableEq

/-- value < low gives LOW, elif value > high gives HIGH, else Normal. -/
def classify (v lo hi : Dec) : Status :=
  if dLt v lo then .low else if dLt hi v then .high else .normal

/-- The status string the analyzer stores, e.g. `HIGH (110.0 mg/dL)`. -/
def statusStr (v lo hi : Dec) (unit : String) : String :=
  match classify v lo hi with
  | .low => "LOW (" ++ pyFloatStr v ++ " " ++ unit ++ ")"
  | .high => "HIGH (" ++ pyFloatStr v ++ " " ++ unit ++ ")"
  | .normal => "Normal (" ++ pyFloatStr v ++ " " ++ unit ++ ")"

/-- One row of the analyzer's result (a row of the DataFrame). -/
structure Record where
  test : String
  value : Dec
  refRange : String
  status : String
  meaning : String
deriving DecidableEq

/-- The per-rule body of the analyzer loop: find the value; find the
in-text range (effective bounds) or fall back to the rule's static
bounds; render the range string and status. -/
def matchRule (textLow : List Char) (name : String) (rule : LabRule) : Option Record :=
  match findTestValue name.data textLow with
  | none => none
  | some v =>
    match findRefRange name.data textLow with
    | some (lo, hi) =>
      some ⟨pyUpper name, v, pyFloatStr lo ++ " - " ++ pyFloatStr hi ++ " " ++ rule.unit,
            statusStr v lo hi rule.unit, rule.meaning⟩
    | none =>
      some ⟨pyUpper name, v,
            rule.low.str ++ " - " ++ rule.high.str ++ " " ++ rule.unit,
            statusStr v rule.low.val rule.high.val rule.unit, rule.meaning⟩

/-- analyze_text_for_lab_values: scan the lower-cased text once per rule,
in rule-table order. -/
def analyze_text_for_lab_values (text : String) : List Record :=
  LAB_RULES.filterMap (fun p => matchRule (pyLower text).data p.1 p.2)

/-! ## The value normalizer (normalize_value) -/

/-- Python exceptions distinguished by the source's except clauses. -/
inductive PyExn where
  | valueError
  | indexError
deriving DecidableEq

deriving instance DecidableEq for Except

/-- Characters of the `[\d\.]+` token class. -/
def isNumDotChar (c : Char) : Bool := c.isDigit || c == '.'

/-- First maximal `[\d\.]+` run (the head of `re.findall(r"[\d\.]+", v)`). -/
def firstRun : List Char → Option (List Char)
  | [] => none
  | c :: s =>
    if isNumDotChar c then some ((c :: s).takeWhile isNumDotChar)
    else firstRun s

/-- Python `float()` on the digit/dot tokens that reach it here: valid
iff it has a digit and at most one dot, otherwise ValueError. -/
def pyFloat (cs : List Char) : Except PyExn Dec :=
  if cs.any (fun c => c.isDigit) ∧ cs.countP (fun c => c == '.') ≤ 1 ∧
     cs.all isNumDotChar then
    Except.ok (decOfToken cs)
  else Except.error .valueError

/-- The last resort of normalize_value: `float(re.findall(r"[\d\.]+", v)[0])`
inside a bare `try/except` (IndexError on no run, ValueError on a bad
token, both caught). -/
def findallFallback (cs : List Char) : Except PyExn (Option Dec) :=
  match firstRun cs with
  | none => Except.ok none
  | some tok =>
    match pyFloat tok with
    | Except.ok d => Except.ok (some d)
    | Except.error _ => Except.ok none

/-- The preprocessing of normalize_value: remove the thousands
separators, strip surrounding whitespace, and drop one leading
comparison sign. -/
def normPrep (raw : String) : List Char :=
  match stripL (stripCommas raw.data) with
  | '<' :: r => r
  | '>' :: r => r
  | r => r

/-- normalize_value: after preprocessing, handle Lakh/Lac, else match a
leading number (with an optional unit suffix, which is ignored), else
fall back to the first number substring.  The result is `ok (some d)`
for a parsed value, `ok none` for the unparseable outcome, and `error`
only if an exception escaped a `try/except` of the source. -/
def normalize_value (raw : String) : Except PyExn (Option Dec) :=
  if containsL (normPrep raw) "Lakh".data || containsL (normPrep raw) "Lac".data then
    match firstRun (normPrep raw) with
    | none => Except.ok none
    | some tok =>
      match pyFloat tok with
      | Except.ok d => Except.ok (some (normDec (d.man * 100000) d.exp))
      | Except.error _ => Except.ok none
  else
    match normPrep raw with
    | c :: _ =>
      if c.isDigit then
        match pyFloat (parseNumGreedy (normPrep raw)) with
        | Except.ok d => Except.ok (some d)
        | Except.error .valueError => Except.ok none
        | Except.error e => Except.error e
      else findallFallback (normPrep raw)
    | [] => findallFallback (normPrep raw)

/-! ## The summary generator (summarize_results) -/

/-- Fixed message for an empty result set. -/
def noTestsMsg : String := "⚠ No recognized tests found in this report."

/-- Fixed message when no abnormal row passes the filter. -/
def withinMsg : String := "✅ All analyzed values appear within expected ranges."

/-- Header of the abnormal-findings message. -/
def abnHeader : String := "⚠ Abnormal findings detected:\n- "

/-- Message of the dead branch (abnormal rows but no notes). -/
def noMajorMsg : String := "✅ No major abnormalities detected among analyzed tests."

/-- The abnormal filter: case-insensitive regex `HIGH|LOW` on Status. -/
def abnFilter (r : Record) : Bool :=
  ciContains r.status "high" || ciContains r.status "low"

/-- The per-row note: case-sensitive `"HIGH" in status` /
`"LOW" in status` branches. -/
def noteOf (r : Record) : Option String :=
  if containsS r.status "HIGH" then some ("High " ++ r.test ++ " → " ++ r.meaning)
  else if containsS r.status "LOW" then some ("Low " ++ r.test ++ " → " ++ r.meaning)
  else none

/-- summarize_results on the analyzer's rows (rows of this shape always
carry a Status column, so the column-missing branch of the source cannot
fire; the emptiness check is the first branch). -/
def summarize_results (df : List Record) : String :=
  if df = [] then noTestsMsg
  else if df.filter abnFilter = [] then withinMsg
  else if (df.filter abnFilter).filterMap noteOf = [] then noMajorMsg
  else abnHeader ++ String.intercalate "\n- " ((df.filter abnFilter).filterMap noteOf)

/-! ## The text acquirer (extract_text_from_file) -/

/-- Outcomes of the external library calls the function makes; an
`Except.error` marks a call that raised. -/
structure ExtractEnv where
  pdfPages : List (Except Unit (Option String))
  camelotRows : List (List String)
  pdfOcr : Except Unit String
  imageDims : Except Unit (Nat × Nat)
  ocrOn : Nat → Nat → Except Unit String

/-- The page loop of the PDF text-layer attempt: append truthy page text
plus a newline; stop at a raising page (the exception is caught by the
surrounding try, keeping the partial text). -/
def pdfTextAcc : List (Except Unit (Option String)) → String → String
  | [], acc => acc
  | Except.error _ :: _, acc => acc
  | Except.ok none :: rest, acc => pdfTextAcc rest acc
  | Except.ok (some t) :: rest, acc =>
    pdfTextAcc rest (if t.data.isEmpty then acc else acc ++ t ++ "\n")

/-- Flatten table rows: cells joined by spaces, rows by newlines. -/
def rowsText (rows : List (List String)) : String :=
  String.intercalate "\n" (rows.map (fun r => String.intercalate " " r))

/-- `filename.lower().endswith(".pdf")`. -/
def isPdfName (f : String) : Bool := endsWithL (pyLower f).data ".pdf".data

/-- `filename.lower().endswith((".png", ".jpg", ".jpeg"))`. -/
def isImgName (f : String) : Bool :=
  endsWithL (pyLower f).data ".png".data ||
  endsWithL (pyLower f).data ".jpg".data ||
  endsWithL (pyLower f).data ".jpeg".data

/-- The grayscale dimensions passed to OCR: `if w < 1000:` upscale both
dimensions by 1.5 (exact in floats here, `int()` truncates). -/
def preprocessDims (w h : Nat) : Nat × Nat :=
  if w < 1000 then (w * 3 / 2, h * 3 / 2) else (w, h)

/-- extract_text_from_file: extension dispatch, the PDF fallback chain
(text layer, then Camelot rows of at least 3 cells, then OCR), the image
OCR path with conditional upscale, and empty text for anything else.
Every external failure is consumed by a translated `try/except`; a result
`Except.error` would mean an exception reached the caller. -/
def extract_text_from_file (env : ExtractEnv) (filename : String) :
    Except Unit String :=
  if isPdfName filename then
    if stripL (pdfTextAcc env.pdfPages "").data = [] then
      if env.camelotRows.filter (fun r => 3 ≤ r.length) = [] then
        match env.pdfOcr with
        | Except.ok t => Except.ok t
        | Except.error _ => Except.ok (pdfTextAcc env.pdfPages "")
      else Except.ok (rowsText (env.camelotRows.filter (fun r => 3 ≤ r.length)))
    else Except.ok (pdfTextAcc env.pdfPages "")
  else if isImgName filename then
    match env.imageDims with
    | Except.error _ => Except.ok ""
    | Except.ok (w, h) =>
      match env.ocrOn (preprocessDims w h).1 (preprocessDims w h).2 with
      | Except.ok t => Except.ok t
      | Except.error _ => Except.ok ""
  else Except.ok ""

/-! ## Concrete inputs and auxiliary predicates used by the theorems -/

/-- The end-to-end scenario text of the specification. -/
def c1Text : String := "Glucose: 110 mg/dL (70-99)\nHemoglobin 11 g/dL"

/-- The GLUCOSE row the analyzer produces on `c1Text`. -/
def gluRec : Record :=
  ⟨"GLUCOSE", ⟨110, 0⟩, "70.0 - 99.0 mg/dL", "HIGH (110.0 mg/dL)",
   "Diabetes risk if high"⟩

/-- The HEMOGLOBIN row the analyzer produces on `c1Text`. -/
def hemRec : Record :=
  ⟨"HEMOGLOBIN", ⟨11, 0⟩, "12 - 16.5 g/dL", "LOW (11.0 g/dL)",
   "Low may indicate anemia"⟩

/-- A text whose in-text range pair comes out inverted (99 before 70). -/
def c10Text : String := "Glucose 120 then 99 - 70"

/-- The case-sensitive abnormality test used by the note builder. -/
def sensAbn (r : Record) : Bool :=
  containsS r.status "HIGH" || containsS r.status "LOW"

/-- A row's status string reacts consistently to the two string tests the
summarizer performs: the case-insensitive HIGH|LOW filter and the
case-sensitive HIGH/LOW note branches agree.  Every status string the
analyzer emits (`LOW (...)`, `HIGH (...)`, `Normal (...)` with a
rule-table unit) satisfies this. -/
def validStatus (r : Record) : Prop := abnFilter r = sensAbn r

instance validStatusDecidable (r : Record) : Decidable (validStatus r) :=
  decidable_of_iff (abnFilter r = sensAbn r) Iff.rfl

/-- A sample abnormal row for witnesses. -/
def wRec : Record := ⟨"X", ⟨1, 0⟩, "r", "HIGH (1.0 u)", "m"⟩

/-- An environment in which every external call raises. -/
def env0 : ExtractEnv :=
  ⟨[], [], Except.error (), Except.error (), fun _ _ => Except.error ()⟩

/-- An environment delivering a wide, flat image (1500 x 600) whose OCR
result reveals the dimensions it was given. -/
def envW : ExtractEnv :=
  ⟨[], [], Except.error (), Except.ok (1500, 600),
   fun w h => Except.ok (toString w ++ "x" ++ toString h)⟩

/-! ## General lemmas -/

theorem dLt_iff (a b : Dec) : dLt a b = true ↔ a.toRat < b.toRat := by
  unfold dLt Dec.toRat
  rw [decide_eq_true_eq]
  rw [div_lt_div_iff₀ (by positivity) (by positivity)]
  constructor
  · intro h2; exact_mod_cast h2
  · intro h2; exact_mod_cast h2

theorem classify_low_iff (v lo hi : Dec) :
    classify v lo hi = Status.low ↔ v.toRat < lo.toRat := by
  unfold classify
  cases h1 : dLt v lo with
  | true => simp [(dLt_iff v lo).mp h1]
  | false =>
    have hnot : ¬ v.toRat < lo.toRat := by
      intro hc
      rw [(dLt_iff v lo).mpr hc] at h1
      cases h1
    cases h2 : dLt hi v <;> simp [hnot]

theorem classify_high_iff (v lo hi : Dec) :
    classify v lo hi = Status.high ↔ lo.toRat ≤ v.toRat ∧ hi.toRat < v.toRat := by
  unfold classify
  cases h1 : dLt v lo with
  | true =>
    have hlt := (dLt_iff v lo).mp h1
    constructor
    · intro hc; cases hc
    · intro hc; linarith [hc.1]
  | false =>
    have hge : lo.toRat ≤ v.toRat := by
      by_contra hc
      push_neg at hc
      rw [(dLt_iff v lo).mpr hc] at h1
      cases h1
    cases h2 : dLt hi v with
    | true => simp [hge, (dLt_iff hi v).mp h2]
    | false =>
      have hnot : ¬ hi.toRat < v.toRat := by
        intro hc
        rw [(dLt_iff hi v).mpr hc] at h2
        cases h2
      simp [hnot]

theorem classify_normal_iff (v lo hi : Dec) :
    classify v lo hi = Status.normal ↔ lo.toRat ≤ v.toRat ∧ v.toRat ≤ hi.toRat := by
  unfold classify
  cases h1 : dLt v lo with
  | true =>
    have hlt := (dLt_iff v lo).mp h1
    constructor
    · intro hc; cases hc
    · intro hc; linarith [hc.1]
  | false =>
    have hge : lo.toRat ≤ v.toRat := by
      by_contra hc
      push_neg at hc
      rw [(dLt_iff v lo).mpr hc] at h1
      cases h1
    cases h2 : dLt hi v with
    | true =>
      have hlt := (dLt_iff hi v).mp h2
      constructor
      · intro hc; cases hc
      · intro hc; linarith [hc.2]
    | false =>
      have hle : v.toRat ≤ hi.toRat := by
        by_contra hc
        push_neg at hc
        rw [(dLt_iff hi v).mpr hc] at h2
        cases h2
      simp [hge, hle]

/-! ## Claim theorems -/

/-- C2 (confirmed): classification against the effective bounds follows
the if/elif chain: value < low gives Low; value > high (the value not
being below low) gives High; every other value, the boundaries included,
gives Normal.  For bounds 70/99, the values 70 and 99 are Normal, 69.9 is
Low and 99.1 is High. -/
theorem c2_classification (v lo hi : Dec) :
    (classify v lo hi = Status.low ↔ v.toRat < lo.toRat)
  ∧ (classify v lo hi = Status.high ↔ lo.toRat ≤ v.toRat ∧ hi.toRat < v.toRat)
  ∧ (classify v lo hi = Status.normal ↔ lo.toRat ≤ v.toRat ∧ v.toRat ≤ hi.toRat)
  ∧ classify ⟨70, 0⟩ ⟨70, 0⟩ ⟨99, 0⟩ = Status.normal
  ∧ classify ⟨99, 0⟩ ⟨70, 0⟩ ⟨99, 0⟩ = Status.normal
  ∧ classify ⟨699, 1⟩ ⟨70, 0⟩ ⟨99, 0⟩ = Status.low
  ∧ classify ⟨991, 1⟩ ⟨70, 0⟩ ⟨99, 0⟩ = Status.high :=
  ⟨classify_low_iff v lo hi, classify_high_iff v lo hi, classify_normal_iff v lo hi,
   by decide, by decide, by decide, by decide⟩

/-- C3 (confirmed): the value normalizer parses the five reference
inputs as the specification states: 10, 5.5, 120000.0, the unparseable
result, and 12000. -/
theorem c3_normalizer_examples :
    (normalize_value "<10" = Except.ok (some ⟨10, 0⟩) ∧ Dec.toRat ⟨10, 0⟩ = 10)
  ∧ (normalize_value ">5.5 mg/dL" = Except.ok (some ⟨55, 1⟩) ∧ Dec.toRat ⟨55, 1⟩ = 11 / 2)
  ∧ (normalize_value "1.2 Lakh" = Except.ok (some ⟨120000, 0⟩) ∧
      Dec.toRat ⟨120000, 0⟩ = 120000)
  ∧ normalize_value "abc" = Except.ok none
  ∧ (normalize_value "12,000" = Except.ok (some ⟨12000, 0⟩) ∧
      Dec.toRat ⟨12000, 0⟩ = 12000) :=
  ⟨⟨by decide, by norm_num [Dec.toRat]⟩,
   ⟨by decide, by norm_num [Dec.toRat]⟩,
   ⟨by decide, by norm_num [Dec.toRat]⟩,
   by decide,
   ⟨by decide, by norm_num [Dec.toRat]⟩⟩

/-- C1 counterexample: on the scenario text no row carries the
reference-range text claimed for GLUCOSE; the in-text numbers pass
through float() and render as 70.0 and 99.0. -/
theorem c1_counterexample :
    analyze_text_for_lab_values c1Text = [gluRec, hemRec]
  ∧ (¬ ∃ r ∈ analyze_text_for_lab_values c1Text,
        r.test = "GLUCOSE" ∧ r.refRange = "70 - 99 mg/dL") := by
  exact ⟨by decide, by decide⟩

/-- C1 (corrected): the scenario text yields exactly the GLUCOSE row
(value 110, in-text range rendered "70.0 - 99.0 mg/dL", status HIGH) and
then the HEMOGLOBIN row (value 11, static fallback "12 - 16.5 g/dL",
status LOW), in rule-table order, and the summary is the abnormal
message with the Glucose line before the Hemoglobin line. -/
theorem c1_end_to_end :
    analyze_text_for_lab_values c1Text = [gluRec, hemRec]
  ∧ gluRec.value.toRat = 110 ∧ hemRec.value.toRat = 11
  ∧ summarize_results (analyze_text_for_lab_values c1Text) =
      "⚠ Abnormal findings detected:\n- High GLUCOSE → Diabetes risk if high\n- Low HEMOGLOBIN → Low may indicate anemia" :=
  ⟨by decide, by norm_num [Dec.toRat, gluRec], by norm_num [Dec.toRat, hemRec], by decide⟩

/-- C10 (confirmed): an in-text pair can invert the effective bounds
(here 99 before 70 after the value 120); the analyzer accepts it, and
under inverted bounds no value classifies as Normal. -/
theorem c10_inverted_bounds :
    findRefRange "glucose".data (pyLower c10Text).data = some (⟨99, 0⟩, ⟨70, 0⟩)
  ∧ Dec.toRat ⟨70, 0⟩ < Dec.toRat ⟨99, 0⟩
  ∧ analyze_text_for_lab_values c10Text =
      [⟨"GLUCOSE", ⟨120, 0⟩, "99.0 - 70.0 mg/dL", "HIGH (120.0 mg/dL)",
        "Diabetes risk if high"⟩]
  ∧ ∀ v : Dec, classify v ⟨99, 0⟩ ⟨70, 0⟩ ≠ Status.normal := by
  refine ⟨by decide, by norm_num [Dec.toRat], by decide, ?_⟩
  intro v hc
  have h := (classify_normal_iff v ⟨99, 0⟩ ⟨70, 0⟩).mp hc
  have h99 : Dec.toRat ⟨99, 0⟩ = 99 := by norm_num [Dec.toRat]
  have h70 : Dec.toRat ⟨70, 0⟩ = 70 := by norm_num [Dec.toRat]
  rw [h99, h70] at h
  linarith [h.1, h.2]

theorem pyFloat_not_indexError (cs : List Char) :
    pyFloat cs ≠ Except.error PyExn.indexError := by
  unfold pyFloat
  split_ifs <;> simp

theorem findallFallback_ok (cs : List Char) :
    ∃ r, findallFallback cs = Except.ok r := by
  unfold findallFallback
  split
  · exact ⟨none, rfl⟩
  · split
    · exact ⟨_, rfl⟩
    · exact ⟨none, rfl⟩

/-- C4 counterexample: the token 1.2.3 does not yield the unparseable
result; the leading-number regex group takes 1.2 and float() succeeds. -/
theorem c4_counterexample :
    normalize_value "1.2.3" = Except.ok (some ⟨12, 1⟩)
  ∧ some (⟨12, 1⟩ : Dec) ≠ (none : Option Dec) := by
  exact ⟨by decide, by simp⟩

/-- C4 (corrected): for every input the normalizer returns a value or
the distinct unparseable result and never lets an exception reach the
caller, and the empty string is unparseable; but a malformed number with
several decimal points is not unparseable: its leading valid prefix is
parsed, e.g. 1.2.3 gives 1.2. -/
theorem c4_total_never_raises :
    (∀ s : String, ∃ r, normalize_value s = Except.ok r)
  ∧ normalize_value "" = Except.ok none
  ∧ normalize_value "1.2.3" = Except.ok (some ⟨12, 1⟩)
  ∧ Dec.toRat ⟨12, 1⟩ = 6 / 5 := by
  refine ⟨?_, by decide, by decide, by norm_num [Dec.toRat]⟩
  intro s
  unfold normalize_value
  split
  · split
    · exact ⟨none, rfl⟩
    · split
      · exact ⟨_, rfl⟩
      · exact ⟨none, rfl⟩
  · split
    · split
      · rcases hpf : pyFloat (parseNumGreedy (normPrep s)) with e | d
        · cases e with
          | valueError => exact ⟨none, rfl⟩
          | indexError => exact absurd hpf (pyFloat_not_indexError _)
        · exact ⟨some d, rfl⟩
      · exact findallFallback_ok _
    · exact findallFallback_ok _

theorem matchRule_inv {textLow : List Char} {name : String} {rule : LabRule}
    {r : Record} (h : matchRule textLow name rule = some r) :
    r.test = pyUpper name ∧ findTestValue name.data textLow = some r.value := by
  unfold matchRule at h
  cases hv : findTestValue name.data textLow with
  | none => rw [hv] at h; cases h
  | some v =>
    rw [hv] at h
    cases hr : findRefRange name.data textLow with
    | some p =>
      obtain ⟨lo, hi⟩ := p
      rw [hr] at h
      cases h
      exact ⟨rfl, rfl⟩
    | none =>
      rw [hr] at h
      cases h
      exact ⟨rfl, rfl⟩

theorem map_filterMap_sublist {α β γ : Type} (f : α → Option β) (g : β → γ)
    (h : α → γ) (H : ∀ a b, f a = some b → g b = h a) :
    ∀ l : List α, List.Sublist ((l.filterMap f).map g) (l.map h)
  | [] => by simp
  | a :: l => by
    rw [List.map_cons]
    cases hfa : f a with
    | none =>
      rw [List.filterMap_cons_none hfa]
      exact List.Sublist.cons (h a) (map_filterMap_sublist f g h H l)
    | some b =>
      rw [List.filterMap_cons_some hfa, List.map_cons, H a b hfa]
      exact List.Sublist.cons₂ (h a) (map_filterMap_sublist f g h H l)

theorem nodup_rule_uppers : (LAB_RULES.map (fun p => pyUpper p.1)).Nodup := by decide

theorem filter_test_len_le_one {l : List Record}
    (hn : (l.map Record.test).Nodup) (t : String) :
    (l.filter (fun r => r.test == t)).length ≤ 1 := by
  induction l with
  | nil => simp
  | cons a l ih =>
    rw [List.map_cons, List.nodup_cons] at hn
    rw [List.filter_cons]
    by_cases hat : a.test = t
    · have hrest : l.filter (fun r => r.test == t) = [] := by
        rw [List.filter_eq_nil_iff]
        intro r hr
        simp only [beq_iff_eq]
        intro he
        exact hn.1 (hat ▸ he ▸ List.mem_map_of_mem Record.test hr)
      simp [hat, hrest]
    · have hcond : (a.test == t) = false := by
        simp only [beq_eq_false_iff_ne, ne_eq]
        exact hat
      rw [hcond]
      simpa using ih hn.2

/-- C5 (confirmed): for every text the result rows form a subsequence of
the rule table's upper-cased names (rule-table iteration order, not text
order), there is at most one row per test, and each row's value is read
at the first digit after the leftmost occurrence of the rule's name in
the lower-cased text (later mentions cannot contribute). -/
theorem c5_result_structure (text : String) :
    List.Sublist ((analyze_text_for_lab_values text).map Record.test)
      (LAB_RULES.map (fun p => pyUpper p.1))
  ∧ (∀ t : String,
      ((analyze_text_for_lab_values text).filter (fun r => r.test == t)).length ≤ 1)
  ∧ (∀ r, r ∈ analyze_text_for_lab_values text →
      ∃ p, p ∈ LAB_RULES ∧ r.test = pyUpper p.1 ∧
        ∃ rest ds, afterFirstOcc p.1.data (pyLower text).data = some rest ∧
          dropToDigit rest = some ds ∧
          r.value = decOfToken (parseNumGreedy ds)) := by
  have hsub : List.Sublist ((analyze_text_for_lab_values text).map Record.test)
      (LAB_RULES.map (fun p => pyUpper p.1)) := by
    unfold analyze_text_for_lab_values
    exact map_filterMap_sublist _ Record.test (fun p => pyUpper p.1)
      (fun p r hm => (matchRule_inv hm).1) LAB_RULES
  refine ⟨hsub, ?_, ?_⟩
  · intro t
    exact filter_test_len_le_one (List.Nodup.sublist hsub nodup_rule_uppers) t
  · intro r hr
    unfold analyze_text_for_lab_values at hr
    obtain ⟨p, hp, hm⟩ := List.mem_filterMap.mp hr
    obtain ⟨hteq, hval⟩ := matchRule_inv hm
    refine ⟨p, hp, hteq, ?_⟩
    unfold findTestValue at hval
    cases hao : afterFirstOcc p.1.data (pyLower text).data with
    | none => rw [hao] at hval; cases hval
    | some rest =>
      rw [hao] at hval
      dsimp only at hval
      cases hdd : dropToDigit rest with
      | none => rw [hdd] at hval; cases hval
      | some ds =>
        rw [hdd] at hval
        dsimp only at hval
        injection hval with hv
        exact ⟨rest, ds, rfl, hdd, hv.symm⟩

/-- Witness for C5 at the concrete text "wbc 5000". -/
theorem c5_witness :
    ∃ p, p ∈ LAB_RULES ∧
      (Record.mk "WBC" ⟨5000, 0⟩ "4000 - 11000 /µL" "Normal (5000.0 /µL)"
        "Abnormal count may indicate infection").test = pyUpper p.1 ∧
      ∃ rest ds, afterFirstOcc p.1.data (pyLower "wbc 5000").data = some rest ∧
        dropToDigit rest = some ds ∧
        (Record.mk "WBC" ⟨5000, 0⟩ "4000 - 11000 /µL" "Normal (5000.0 /µL)"
          "Abnormal count may indicate infection").value = decOfToken (parseNumGreedy ds) :=
  (c5_result_structure "wbc 5000").2.2 _ (by decide)

theorem noteOf_eq_none {r : Record} (h : sensAbn r = false) : noteOf r = none := by
  unfold sensAbn at h
  rw [Bool.or_eq_false_iff] at h
  unfold noteOf
  rw [h.1, h.2]
  simp

theorem noteOf_eq_some {r : Record} (h : sensAbn r = true) :
    ∃ x, noteOf r = some x := by
  unfold sensAbn at h
  unfold noteOf
  cases hH : containsS r.status "HIGH" with
  | true => simp
  | false =>
    cases hL : containsS r.status "LOW" with
    | true => simp
    | false => rw [hH, hL] at h; cases h

theorem filter_filterMap_notes {l : List Record} (h : ∀ r ∈ l, validStatus r) :
    (l.filter abnFilter).filterMap noteOf = l.filterMap noteOf := by
  induction l with
  | nil => rfl
  | cons a l ih =>
    have ha : validStatus a := h a (List.mem_cons_self a l)
    have hrest : ∀ r ∈ l, validStatus r := fun r hrl => h r (List.mem_cons_of_mem a hrl)
    rw [List.filter_cons]
    cases hab : abnFilter a with
    | true =>
      rw [if_pos rfl]
      cases hno : noteOf a with
      | none =>
        rw [List.filterMap_cons_none hno, List.filterMap_cons_none hno, ih hrest]
      | some x =>
        rw [List.filterMap_cons_some hno, List.filterMap_cons_some hno, ih hrest]
    | false =>
      have hsens : sensAbn a = false := by
        unfold validStatus at ha
        rw [hab] at ha
        exact ha.symm
      rw [if_neg (by simp)]
      rw [List.filterMap_cons_none (noteOf_eq_none hsens), ih hrest]

theorem header_append_ne_noTests (s : String) : abnHeader ++ s ≠ noTestsMsg := by
  intro h
  have h3 : (abnHeader ++ s).data.take 3 = noTestsMsg.data.take 3 := by rw [h]
  rw [String.data_append, List.take_append_of_le_length (by decide)] at h3
  exact absurd h3 (by decide)

/-- C6 (confirmed): for result rows whose status strings react
consistently to the summarizer's two string tests (as every analyzer
status does), summarize returns the no-recognized-tests message exactly
on the empty result; a nonempty result of only Normal rows gives the
fixed within-ranges message however many rows there are; and otherwise
the output is the abnormal-findings header followed by one High/Low note
per abnormal row in result order, Normal rows contributing nothing. -/
theorem c6_summary_cases (l : List Record) (h : ∀ r ∈ l, validStatus r) :
    (summarize_results l = noTestsMsg ↔ l = [])
  ∧ (l ≠ [] → (∀ r ∈ l, sensAbn r = false) → summarize_results l = withinMsg)
  ∧ ((∃ r ∈ l, sensAbn r = true) →
      summarize_results l =
        abnHeader ++ String.intercalate "\n- " (l.filterMap noteOf)) := by
  have habn_false : ∀ r ∈ l, sensAbn r = false → abnFilter r = false := by
    intro r hrl hs
    have := h r hrl
    unfold validStatus at this
    rw [this, hs]
  refine ⟨⟨?_, ?_⟩, ?_, ?_⟩
  · intro hs
    by_contra hne
    unfold summarize_results at hs
    rw [if_neg hne] at hs
    by_cases h1 : l.filter abnFilter = []
    · rw [if_pos h1] at hs
      exact absurd hs (by decide)
    · rw [if_neg h1] at hs
      by_cases h2 : (l.filter abnFilter).filterMap noteOf = []
      · rw [if_pos h2] at hs
        exact absurd hs (by decide)
      · rw [if_neg h2] at hs
        exact header_append_ne_noTests _ hs
  · intro hl
    rw [hl]
    rfl
  · intro hne hall
    unfold summarize_results
    rw [if_neg hne, if_pos]
    rw [List.filter_eq_nil_iff]
    intro r hrl
    rw [habn_false r hrl (hall r hrl)]
    simp
  · rintro ⟨r, hrl, hrs⟩
    have hfil : abnFilter r = true := by
      have := h r hrl
      unfold validStatus at this
      rw [this, hrs]
    have hmem : r ∈ l.filter abnFilter := List.mem_filter.mpr ⟨hrl, hfil⟩
    have habn_ne : l.filter abnFilter ≠ [] := by
      intro he
      rw [he] at hmem
      cases hmem
    obtain ⟨x, hx⟩ := noteOf_eq_some hrs
    have hnotes_ne : (l.filter abnFilter).filterMap noteOf ≠ [] := by
      intro he
      have : x ∈ (l.filter abnFilter).filterMap noteOf :=
        List.mem_filterMap.mpr ⟨r, hmem, hx⟩
      rw [he] at this
      cases this
    unfold summarize_results
    rw [if_neg (by intro he; rw [he] at hrl; cases hrl), if_neg habn_ne,
        if_neg hnotes_ne, filter_filterMap_notes h]

/-- Witness for C6 on a one-row abnormal result. -/
theorem c6_witness :
    summarize_results [wRec] =
      abnHeader ++ String.intercalate "\n- " ([wRec].filterMap noteOf) :=
  (c6_summary_cases [wRec] (by decide)).2.2 ⟨wRec, by decide, by decide⟩

/-- C7 (confirmed): the acquirer never lets an exception past its
boundary (every call path returns a value); an unsupported filename
yields empty text; and an image path whose load raises degrades to
empty text rather than propagating the failure. -/
theorem c7_acquirer_never_raises (env : ExtractEnv) (fname : String) :
    (∃ s, extract_text_from_file env fname = Except.ok s)
  ∧ (isPdfName fname = false → isImgName fname = false →
      extract_text_from_file env fname = Except.ok "")
  ∧ (isPdfName fname = false → isImgName fname = true →
      env.imageDims = Except.error () →
      extract_text_from_file env fname = Except.ok "") := by
  refine ⟨?_, ?_, ?_⟩
  · unfold extract_text_from_file
    split_ifs with h1 h2 h3 h2
    · cases env.pdfOcr with
      | ok t => exact ⟨t, rfl⟩
      | error e => exact ⟨_, rfl⟩
    · exact ⟨_, rfl⟩
    · exact ⟨_, rfl⟩
    · cases hD : env.imageDims with
      | error e => exact ⟨"", rfl⟩
      | ok p =>
        obtain ⟨w, h⟩ := p
        dsimp only
        cases hO : env.ocrOn (preprocessDims w h).1 (preprocessDims w h).2 with
        | ok t => exact ⟨t, rfl⟩
        | error e => exact ⟨"", rfl⟩
    · exact ⟨"", rfl⟩
  · intro h1 h2
    unfold extract_text_from_file
    rw [h1, h2]
    rfl
  · intro h1 h2 h3
    unfold extract_text_from_file
    rw [h1, h2, h3]
    rfl

/-- Witness for C7: unsupported extension and failing image load. -/
theorem c7_witness :
    extract_text_from_file env0 "report.txt" = Except.ok ""
  ∧ extract_text_from_file env0 "photo.png" = Except.ok "" :=
  ⟨(c7_acquirer_never_raises env0 "report.txt").2.1 (by decide) (by decide),
   (c7_acquirer_never_raises env0 "photo.png").2.2 (by decide) (by decide) rfl⟩

/-- C8 counterexample: on an unrecognized extension the core returns
normally with empty text; no error value is produced, so nothing is
raised to the caller. -/
theorem c8_counterexample :
    extract_text_from_file env0 "data.docx" = Except.ok ""
  ∧ ∀ e, extract_text_from_file env0 "data.docx" ≠ Except.error e := by
  have hk : extract_text_from_file env0 "data.docx" = Except.ok "" := by rfl
  exact ⟨hk, fun e he => by rw [hk] at he; cases he⟩

/-- C8 (corrected): on an unrecognized filename extension the core does
not raise anything: it prints a message and silently degrades, returning
empty text to the caller. -/
theorem c8_unsupported_silent (env : ExtractEnv) (fname : String)
    (h1 : isPdfName fname = false) (h2 : isImgName fname = false) :
    extract_text_from_file env fname = Except.ok ""
  ∧ ∀ e, extract_text_from_file env fname ≠ Except.error e := by
  have hk : extract_text_from_file env fname = Except.ok "" := by
    unfold extract_text_from_file
    rw [h1, h2]
    rfl
  exact ⟨hk, fun e he => by rw [hk] at he; cases he⟩

/-- Witness for C8 on a concrete unsupported name. -/
theorem c8_witness :
    extract_text_from_file env0 "notes.md" = Except.ok ""
  ∧ ∀ e, extract_text_from_file env0 "notes.md" ≠ Except.error e :=
  c8_unsupported_silent env0 "notes.md" (by decide) (by decide)

/-- C9 counterexample: a 1500 x 600 grayscale image has its narrower
dimension (600) below 1000, yet the code checks only the width, so no
upscale happens: OCR receives the original 1500 x 600 raster. -/
theorem c9_counterexample :
    min 1500 600 < 1000
  ∧ preprocessDims 1500 600 = (1500, 600)
  ∧ extract_text_from_file envW "scan.png" = Except.ok "1500x600" := by
  exact ⟨by decide, by decide, by rfl⟩

/-- C9 (corrected): on the image path OCR always runs on the
preprocessed raster, which is upscaled by 1.5 (with truncation to int)
exactly when the image width is below 1000 pixels; the height is not
consulted. -/
theorem c9_upscale_on_width (env : ExtractEnv) (fname : String) (w h : Nat)
    (h1 : isPdfName fname = false) (h2 : isImgName fname = true)
    (h3 : env.imageDims = Except.ok (w, h)) :
    extract_text_from_file env fname =
      Except.ok (match env.ocrOn (preprocessDims w h).1 (preprocessDims w h).2 with
                 | Except.ok t => t
                 | Except.error _ => "")
  ∧ (w < 1000 → preprocessDims w h = (w * 3 / 2, h * 3 / 2))
  ∧ (1000 ≤ w → preprocessDims w h = (w, h)) := by
  refine ⟨?_, ?_, ?_⟩
  · unfold extract_text_from_file
    rw [h1, h2, h3]
    dsimp only
    cases env.ocrOn (preprocessDims w h).1 (preprocessDims w h).2 with
    | ok t => rfl
    | error e => rfl
  · intro hw
    unfold preprocessDims
    rw [if_pos hw]
  · intro hw
    unfold preprocessDims
    rw [if_neg (by omega)]

/-- Witness for C9 at the concrete 1500 x 600 environment. -/
theorem c9_witness :
    extract_text_from_file envW "pic.jpg" =
      Except.ok (match envW.ocrOn (preprocessDims 1500 600).1 (preprocessDims 1500 600).2 with
                 | Except.ok t => t
                 | Except.error _ => "")
  ∧ (1500 < 1000 → preprocessDims 1500 600 = (1500 * 3 / 2, 600 * 3 / 2))
  ∧ (1000 ≤ 1500 → preprocessDims 1500 600 = (1500, 600)) :=
  c9_upscale_on_width envW "pic.jpg" 1500 600 (by decide) (by decide) rfl

/-! ## The engine agrees with the direct embedding of the value pattern -/

theorem drop_length_takeWhile (p : Char → Bool) :
    ∀ s : List Char, s.drop (s.takeWhile p).length = s.dropWhile p
  | [] => rfl
  | c :: s => by
    cases h : p c with
    | true => simp [List.takeWhile_cons, List.dropWhile_cons, h, drop_length_takeWhile p s]
    | false => simp [List.takeWhile_cons, List.dropWhile_cons, h]

theorem parse_split_aux (t u : List Char) :
    ((match u with
      | '.' :: r => t ++ '.' :: r.takeWhile (fun c => c.isDigit)
      | _ => t) ++
     (match u with
      | '.' :: r => r.dropWhile (fun c => c.isDigit)
      | r => r)) = t ++ u := by
  split
  · simp [List.append_assoc, List.takeWhile_append_dropWhile]
  · rfl

theorem parseNumGreedy_append (s : List Char) :
    parseNumGreedy s ++ numRest s = s := by
  unfold parseNumGreedy numRest
  dsimp only
  rw [drop_length_takeWhile]
  conv_rhs => rw [← List.takeWhile_append_dropWhile (p := fun c => c.isDigit) (l := s)]
  cases hd : s.dropWhile (fun c => c.isDigit) with
  | nil => simp
  | cons c r =>
    by_cases hc : c = '.'
    · subst hc
      simp [List.append_assoc, List.takeWhile_append_dropWhile]
    · split
      · rename_i r2 heq
        exact absurd (List.cons.inj heq).1 hc
      · rfl

theorem take_sub_of_append {p t s : List Char} (h : p ++ t = s) :
    s.take (s.length - t.length) = p := by
  subst h
  rw [List.length_append, Nat.add_sub_cancel, List.take_left]

theorem mrun_starDigit_gclose (s0 : List Char) (s : List Char) :
    ∀ (fuel : Nat) (stk caps : List (List Char)), 2 * s.length + 3 ≤ fuel →
      mrun fuel [.star .digit true, .gclose] s (s0 :: stk) caps =
        some (caps ++ [s0.take (s0.length - (s.dropWhile (fun c => c.isDigit)).length)]) := by
  induction s with
  | nil =>
    intro fuel stk caps h
    obtain ⟨f, rfl⟩ : ∃ f, fuel = f + 3 := ⟨fuel - 3, by omega⟩
    rfl
  | cons c s ih =>
    intro fuel stk caps h
    obtain ⟨f, rfl⟩ : ∃ f, fuel = f + 1 := ⟨fuel - 1, by omega⟩
    cases hdc : c.isDigit with
    | true =>
      simp only [mrun, CClass.mem, hdc, List.dropWhile_cons]
      rw [ih f stk caps (by simp at h; omega)]
      simp [hdc]
    | false =>
      obtain ⟨f2, rfl⟩ : ∃ f2, f = f2 + 2 := ⟨f - 2, by omega⟩
      simp only [mrun, CClass.mem, hdc, List.dropWhile_cons]
      simp [hdc]

theorem numRest_nil : numRest [] = [] := rfl

theorem numRest_dot (r : List Char) :
    numRest ('.' :: r) = r.dropWhile (fun c => c.isDigit) := rfl

theorem numRest_digit {c : Char} {r : List Char} (hd : c.isDigit = true) :
    numRest (c :: r) = numRest r := by
  unfold numRest
  rw [List.dropWhile_cons, if_pos hd]

theorem numRest_eq_self {c : Char} {r : List Char} (hd : c.isDigit = false)
    (hc : c ≠ '.') : numRest (c :: r) = c :: r := by
  unfold numRest
  rw [List.dropWhile_cons, if_neg (by simp [hd])]
  split
  · rename_i r2 heq
    exact absurd (List.cons.inj heq).1 hc
  · rfl

theorem mrun_star_nil {cl : CClass} {ps : List RItem} {stk caps : List (List Char)}
    {f : Nat} : mrun (f + 1) (.star cl true :: ps) [] stk caps = mrun f ps [] stk caps := by
  simp [mrun]

theorem mrun_star_mem {cl : CClass} {ps : List RItem} {c : Char} {s1 : List Char}
    {stk caps : List (List Char)} {f : Nat} (h : cl.mem c = true) :
    mrun (f + 1) (.star cl true :: ps) (c :: s1) stk caps =
      (match mrun f (.star cl true :: ps) s1 stk caps with
       | some r => some r
       | none => mrun f ps (c :: s1) stk caps) := by
  simp only [mrun, h, if_true]

theorem mrun_star_notmem {cl : CClass} {ps : List RItem} {c : Char} {s1 : List Char}
    {stk caps : List (List Char)} {f : Nat} (h : cl.mem c = false) :
    mrun (f + 1) (.star cl true :: ps) (c :: s1) stk caps =
      mrun f ps (c :: s1) stk caps := by
  simp only [mrun, h]
  simp

theorem mrun_opt_nil {cl : CClass} {ps : List RItem} {stk caps : List (List Char)}
    {f : Nat} : mrun (f + 1) (.opt cl :: ps) [] stk caps = mrun f ps [] stk caps := by
  simp only [mrun]

theorem mrun_opt_mem {cl : CClass} {ps : List RItem} {c : Char} {s1 : List Char}
    {stk caps : List (List Char)} {f : Nat} (h : cl.mem c = true) :
    mrun (f + 1) (.opt cl :: ps) (c :: s1) stk caps =
      (match mrun f ps s1 stk caps with
       | some r => some r
       | none => mrun f ps (c :: s1) stk caps) := by
  simp only [mrun, h, if_true]

theorem mrun_opt_notmem {cl : CClass} {ps : List RItem} {c : Char} {s1 : List Char}
    {stk caps : List (List Char)} {f : Nat} (h : cl.mem c = false) :
    mrun (f + 1) (.opt cl :: ps) (c :: s1) stk caps = mrun f ps (c :: s1) stk caps := by
  simp only [mrun, h]
  simp

theorem mrun_one_nil {cl : CClass} {ps : List RItem} {stk caps : List (List Char)}
    {f : Nat} : mrun (f + 1) (.one cl :: ps) [] stk caps = none := by
  simp only [mrun]

theorem mrun_one_mem {cl : CClass} {ps : List RItem} {c : Char} {s1 : List Char}
    {stk caps : List (List Char)} {f : Nat} (h : cl.mem c = true) :
    mrun (f + 1) (.one cl :: ps) (c :: s1) stk caps = mrun f ps s1 stk caps := by
  simp only [mrun, h, if_true]

theorem mrun_one_notmem {cl : CClass} {ps : List RItem} {c : Char} {s1 : List Char}
    {stk caps : List (List Char)} {f : Nat} (h : cl.mem c = false) :
    mrun (f + 1) (.one cl :: ps) (c :: s1) stk caps = none := by
  simp only [mrun, h]
  simp

theorem mrun_lit {cs : List Char} {ps : List RItem} {s : List Char}
    {stk caps : List (List Char)} {f : Nat} :
    mrun (f + 1) (.lit cs :: ps) s stk caps =
      if hasPrefixL cs s then mrun f ps (s.drop cs.length) stk caps else none := by
  simp only [mrun]

theorem mrun_gopen {ps : List RItem} {s : List Char} {stk caps : List (List Char)}
    {f : Nat} : mrun (f + 1) (.gopen :: ps) s stk caps = mrun f ps s (s :: stk) caps := by
  simp only [mrun]

theorem mrun_gclose {ps : List RItem} {s s0 : List Char}
    {stk caps : List (List Char)} {f : Nat} :
    mrun (f + 1) (.gclose :: ps) s (s0 :: stk) caps =
      mrun f ps s stk (caps ++ [s0.take (s0.length - s.length)]) := by
  simp only [mrun]

theorem mrun_numTail (s0 : List Char) (s : List Char) :
    ∀ (fuel : Nat) (stk caps : List (List Char)), 3 * s.length + 5 ≤ fuel →
      mrun fuel [.star .digit true, .opt .dotChar, .star .digit true, .gclose]
          s (s0 :: stk) caps =
        some (caps ++ [s0.take (s0.length - (numRest s).length)]) := by
  induction s with
  | nil =>
    intro fuel stk caps h
    obtain ⟨f, rfl⟩ : ∃ f, fuel = f + 5 := ⟨fuel - 5, by omega⟩
    rfl
  | cons c s ih =>
    intro fuel stk caps h
    obtain ⟨f, rfl⟩ : ∃ f, fuel = f + 1 := ⟨fuel - 1, by omega⟩
    cases hdc : c.isDigit with
    | true =>
      rw [mrun_star_mem (show CClass.mem .digit c = true from hdc)]
      rw [ih f stk caps (by simp only [List.length_cons] at h; omega)]
      rw [numRest_digit hdc]
    | false =>
      rw [mrun_star_notmem (show CClass.mem .digit c = false from hdc)]
      obtain ⟨f2, rfl⟩ : ∃ f2, f = f2 + 1 := ⟨f - 1, by omega⟩
      by_cases hdot : c = '.'
      · subst hdot
        rw [mrun_opt_mem (show CClass.mem .dotChar '.' = true from rfl)]
        rw [mrun_starDigit_gclose s0 s f2 stk caps
          (by simp only [List.length_cons] at h; omega)]
        rw [numRest_dot]
      · rw [mrun_opt_notmem
          (show CClass.mem .dotChar c = false from beq_eq_false_iff_ne.mpr hdot)]
        rw [mrun_starDigit_gclose s0 (c :: s) f2 stk caps
          (by simp only [List.length_cons] at h ⊢; omega)]
        rw [numRest_eq_self hdc hdot]
        simp [List.dropWhile_cons, hdc]

theorem mrun_numGroup_digit {c : Char} {s1 : List Char} (hdc : c.isDigit = true) :
    ∀ (fuel : Nat) (stk caps : List (List Char)), 3 * s1.length + 7 ≤ fuel →
      mrun fuel numGroup (c :: s1) stk caps =
        some (caps ++ [parseNumGreedy (c :: s1)]) := by
  intro fuel stk caps h
  obtain ⟨f, rfl⟩ : ∃ f, fuel = f + 2 := ⟨fuel - 2, by omega⟩
  unfold numGroup
  rw [mrun_gopen, mrun_one_mem (show CClass.mem .digit c = true from hdc)]
  rw [mrun_numTail (c :: s1) s1 f stk caps (by omega)]
  have hsplit : parseNumGreedy (c :: s1) ++ numRest s1 = c :: s1 := by
    rw [← numRest_digit hdc]
    exact parseNumGreedy_append (c :: s1)
  rw [take_sub_of_append hsplit]

theorem mrun_numGroup_nil :
    ∀ (fuel : Nat) (stk caps : List (List Char)), 2 ≤ fuel →
      mrun fuel numGroup [] stk caps = none := by
  intro fuel stk caps h
  obtain ⟨f, rfl⟩ : ∃ f, fuel = f + 2 := ⟨fuel - 2, by omega⟩
  unfold numGroup
  rw [mrun_gopen, mrun_one_nil]

theorem mrun_numGroup_notdigit {c : Char} {s1 : List Char} (hdc : c.isDigit = false) :
    ∀ (fuel : Nat) (stk caps : List (List Char)), 2 ≤ fuel →
      mrun fuel numGroup (c :: s1) stk caps = none := by
  intro fuel stk caps h
  obtain ⟨f, rfl⟩ : ∃ f, fuel = f + 2 := ⟨fuel - 2, by omega⟩
  unfold numGroup
  rw [mrun_gopen, mrun_one_notmem (show CClass.mem .digit c = false from hdc)]

theorem mrun_skipToNum (s : List Char) :
    ∀ (fuel : Nat) (stk caps : List (List Char)), 4 * s.length + 9 ≤ fuel →
      mrun fuel (.star .nonDigit true :: numGroup) s stk caps =
        (match dropToDigit s with
         | some ds => some (caps ++ [parseNumGreedy ds])
         | none => none) := by
  induction s with
  | nil =>
    intro fuel stk caps h
    obtain ⟨f, rfl⟩ : ∃ f, fuel = f + 1 := ⟨fuel - 1, by omega⟩
    rw [mrun_star_nil, mrun_numGroup_nil f stk caps (by omega)]
    rfl
  | cons c s ih =>
    intro fuel stk caps h
    obtain ⟨f, rfl⟩ : ∃ f, fuel = f + 1 := ⟨fuel - 1, by omega⟩
    cases hdc : c.isDigit with
    | true =>
      rw [mrun_star_notmem (show CClass.mem .nonDigit c = false by
        simp [CClass.mem, hdc])]
      rw [mrun_numGroup_digit hdc f stk caps
        (by simp only [List.length_cons] at h; omega)]
      simp [dropToDigit, hdc]
    | false =>
      rw [mrun_star_mem (show CClass.mem .nonDigit c = true by
        simp [CClass.mem, hdc])]
      rw [ih f stk caps (by simp only [List.length_cons] at h; omega)]
      cases hds : dropToDigit s with
      | some ds => simp [dropToDigit, hdc, hds]
      | none =>
        dsimp only
        rw [mrun_numGroup_notdigit hdc f stk caps (by omega)]
        simp [dropToDigit, hdc, hds]

theorem mrun_valuePattern (test s : List Char) :
    ∀ fuel : Nat, 4 * s.length + 10 ≤ fuel →
      mrun fuel (valuePattern test) s [] [] =
        (if hasPrefixL test s then
          (match dropToDigit (s.drop test.length) with
           | some ds => some [parseNumGreedy ds]
           | none => none)
         else none) := by
  intro fuel h
  obtain ⟨f, rfl⟩ : ∃ f, fuel = f + 1 := ⟨fuel - 1, by omega⟩
  simp only [valuePattern, List.cons_append, List.nil_append]
  rw [mrun_lit]
  cases hpre : hasPrefixL test s with
  | false => simp
  | true =>
    simp only [if_true]
    rw [mrun_skipToNum (s.drop test.length) f [] []
      (by have := List.length_drop test.length s; omega)]
    simp

theorem dropToDigit_eq_none_iff (s : List Char) :
    dropToDigit s = none ↔ ∀ a ∈ s, a.isDigit = false := by
  induction s with
  | nil => simp [dropToDigit]
  | cons c s ih =>
    unfold dropToDigit
    cases hdc : c.isDigit with
    | true => simp [hdc]
    | false => simp [hdc, ih]

theorem afterFirstOcc_drop (pat : List Char) :
    ∀ s rest : List Char, afterFirstOcc pat s = some rest →
      ∃ k, pat.length ≤ k ∧ rest = s.drop k
  | [], rest, h => by
    unfold afterFirstOcc at h
    by_cases hp : pat.isEmpty
    · rw [if_pos hp] at h
      injection h with h2
      exact ⟨0, by simp [List.isEmpty_iff.mp hp], by simp [h2.symm]⟩
    · rw [if_neg hp] at h
      cases h
  | c :: s, rest, h => by
    unfold afterFirstOcc at h
    by_cases hp : hasPrefixL pat (c :: s) = true
    · rw [if_pos hp] at h
      injection h with h2
      exact ⟨pat.length, le_refl _, h2.symm⟩
    · rw [if_neg hp] at h
      obtain ⟨k, hk, hrest⟩ := afterFirstOcc_drop pat s rest h
      exact ⟨k + 1, by omega, by simpa using hrest⟩

theorem patWeight_valuePattern (test : List Char) :
    patWeight (valuePattern test) = test.length + 9 := by
  simp [patWeight, valuePattern, numGroup, List.foldl]
  omega

theorem fuelFor_valuePattern_ge (test s : List Char) :
    4 * s.length + 10 ≤ fuelFor (valuePattern test) s := by
  unfold fuelFor
  rw [patWeight_valuePattern]
  have h1 : (s.length + 1) * 10 ≤ (s.length + 1) * (test.length + 9 + 1) :=
    Nat.mul_le_mul_left _ (by omega)
  omega

/-- The engine search of the transliterated value pattern computes
exactly what `findTestValue` embeds directly: the match anchors at the
first occurrence of the name that a digit follows — which is the first
occurrence, if any digit follows it at all — and captures the maximal
number token at the first digit after it. -/
theorem rsearch_valuePattern (test : List Char) :
    ∀ s : List Char, rsearch (valuePattern test) s =
      (match (afterFirstOcc test s).bind dropToDigit with
       | some ds => some [parseNumGreedy ds]
       | none => none) := by
  intro s
  induction s with
  | nil =>
    unfold rsearch
    rw [mrun_valuePattern test [] _ (fuelFor_valuePattern_ge test [])]
    cases test with
    | nil => simp [afterFirstOcc, hasPrefixL, dropToDigit]
    | cons t ts => simp [afterFirstOcc, hasPrefixL, dropToDigit]
  | cons c s' ih =>
    unfold rsearch
    rw [mrun_valuePattern test (c :: s') _ (fuelFor_valuePattern_ge test (c :: s'))]
    have eocc : afterFirstOcc test (c :: s') =
        (if hasPrefixL test (c :: s') = true then some ((c :: s').drop test.length)
         else afterFirstOcc test s') := rfl
    cases hpre : hasPrefixL test (c :: s') with
    | true =>
      cases hdd : dropToDigit ((c :: s').drop test.length) with
      | some ds =>
        rw [eocc, if_pos hpre]
        dsimp only [Option.bind]
        rw [hdd]
        rfl
      | none =>
        have hnone : (afterFirstOcc test s').bind dropToDigit = none := by
          cases hao : afterFirstOcc test s' with
          | none => rfl
          | some rest =>
            obtain ⟨k, hk, hr⟩ := afterFirstOcc_drop test s' rest hao
            subst hr
            dsimp only [Option.bind]
            rw [dropToDigit_eq_none_iff]
            intro a ha
            have e1 : s'.drop k =
                ((c :: s').drop test.length).drop (k + 1 - test.length) := by
              rw [List.drop_drop]
              have e2 : test.length + (k + 1 - test.length) = k + 1 := by omega
              rw [e2]
              rfl
            rw [e1] at ha
            exact (dropToDigit_eq_none_iff _).mp hdd a (List.mem_of_mem_drop ha)
        rw [eocc, if_pos hpre]
        dsimp only [Option.bind]
        rw [hdd]
        show rsearch (valuePattern test) s' = none
        rw [ih, hnone]
    | false =>
      rw [eocc, hpre]
      exact ih

/-- `findTestValue` — the direct embedding of the value-extraction regex
`NAME[^0-9]*(\d+\.?\d*)` — computes exactly what the backtracking engine
returns on the transliterated pattern, decoding the single capture group.
This discharges the regex-semantics step of the embedding. -/
theorem findTestValue_eq_engine (test s : List Char) :
    findTestValue test s =
      (match rsearch (valuePattern test) s with
       | some (ds :: _) => some (decOfToken ds)
       | _ => none) := by
  rw [rsearch_valuePattern]
  unfold findTestValue
  cases hao : afterFirstOcc test s with
  | none => rfl
  | some rest =>
    dsimp only [Option.bind]
    cases hdd : dropToDigit rest with
    | none => rfl
    | some ds => rfl
